import Mathlib

/-!
Verification of the terminal-UI core of `ovh-terminal-go`.

This file shallowly embeds the parts of the repository that the claims are
about:

* the menu item data model (`internal/ui/common/types.go`,
  `internal/ui/types/item.go`);
* the menu tree model operations `ToggleItemExpanded` and `UpdateMenuItems`
  (`internal/ui/types/model.go`; the dynamically-fetching iteration of
  `UpdateMenuItems` from the `src/unnamed/part_010` iteration of the same
  file is embedded separately as `updateMenuItemsDyn`);
* the key-event dispatcher and command handlers
  (`internal/ui/handlers/updates.go`, `internal/ui/handlers/commands.go`);
* the layout manager (`internal/ui/layout/layout.go`, the
  `calculateDimensions`-based iteration);
* the asynchronous command execution channel discipline
  (`internal/commands/me.go`, `MeCommand.ExecuteAsync`).

Go machine integers are modelled as `Int` (no arithmetic in the embedded
code can overflow 64-bit in the ranges the claims quantify over, and Go
`int` is 64-bit on the target platforms); list indices coming from the
Bubble Tea list widget are modelled as `Nat` where the Go code guarantees
non-negativity, and as `Int` where the Go code takes an `int` parameter and
guards against negative values (`ToggleItemExpanded`).

Calls into the external Bubble Tea / Bubbles / Lipgloss libraries are not
part of this repository; where a handler delegates to them the embedding
records only the effect on the state that the repository's own code
observes, and each such place is marked with a comment.
-/

/-- `common.ItemType` from `internal/ui/common/types.go`. -/
inductive ItemType where
  | typeNormal
  | typeHeader
  | typeSubHeader
  | typeServerItem
  | typeTreeItem
  | typeTreeLastItem
deriving DecidableEq, Repr

/-- `types.ListItem` from `internal/ui/types/item.go`: one row of the
flattened menu list (`text`, `desc`, `itemType`, `expanded`, `indent`,
`selectable`). -/
structure ListItem where
  text : String
  desc : String
  itemType : ItemType
  expanded : Bool
  indent : Nat
  selectable : Bool
deriving DecidableEq, Repr

instance : Inhabited ListItem :=
  ⟨{ text := "", desc := "", itemType := ItemType.typeNormal,
     expanded := false, indent := 0, selectable := true }⟩

/-- `ListItem.WithExpanded` from `internal/ui/types/item.go`: copy of the
item with the `expanded` field replaced. -/
def ListItem.withExpanded (i : ListItem) (e : Bool) : ListItem :=
  { i with expanded := e }

/-- `NewListItem` from `internal/ui/types/item.go` with the option functions
already applied.  In the Go constructor `selectable` defaults to `true` and
`expanded` to `false`; all call sites in the embedded code pass `desc` and
`indent` through `WithDesc`/`WithIndent` (or leave them zero), so the
embedding takes the resulting field values positionally. -/
def newListItem (text : String) (itemType : ItemType) (desc : String)
    (indent : Nat) (expanded : Bool) (selectable : Bool) : ListItem :=
  { text := text, desc := desc, itemType := itemType,
    expanded := expanded, indent := indent, selectable := selectable }

/-- `CreateBaseMenuItems` from `internal/ui/types/item.go`: the initial
flattened menu (three collapsed top-level headers and the Exit row). -/
def createBaseMenuItems : List ListItem :=
  [ newListItem "Account Information" ItemType.typeHeader "" 0 false true,
    newListItem "Bare Metal Cloud" ItemType.typeHeader "" 0 false true,
    newListItem "Web Cloud" ItemType.typeHeader "" 0 false true,
    newListItem "Exit" ItemType.typeNormal "Exit the application" 0 false true ]

/-- `Model.ToggleItemExpanded` from `internal/ui/types/model.go` (lines
281-297), acting on the item slice of the embedded list widget.  The Go
method takes an `int` index and silently returns when it is out of range;
the type assertion `items[index].(ListItem)` always succeeds because every
element of the slice is a `ListItem` (the embedding's list is homogeneous
for the same reason). -/
def toggleItemExpanded (items : List ListItem) (index : Int) : List ListItem :=
  if index < 0 || (items.length : Int) ≤ index then
    items
  else
    match items.get? index.toNat with
    | some it => items.set index.toNat (it.withExpanded (!it.expanded))
    | none => items

/-- The child rows that `Model.UpdateMenuItems` (`internal/ui/types/model.go`
lines 111-160) appends after an expanded header, keyed by the header's
title; for a collapsed header, a non-header item, or an unknown title no
children are produced.  Each child is built with `NewListItem(...,
WithDesc(...), WithIndent(1))`. -/
def childrenFor (curr : ListItem) : List ListItem :=
  if curr.itemType == ItemType.typeHeader && curr.expanded then
    match curr.text with
    | "Account Information" =>
        [ newListItem "My information" ItemType.typeTreeItem
            "View and manage my current information" 1 false true,
          newListItem "API information" ItemType.typeTreeLastItem
            "Information about applications and credentials" 1 false true ]
    | "Bare Metal Cloud" =>
        [ newListItem "Dedicated Servers" ItemType.typeTreeItem
            "View and manage servers" 1 false true,
          newListItem "Virtual Private Servers" ItemType.typeTreeLastItem
            "" 1 false true ]
    | "Web Cloud" =>
        [ newListItem "Domain names" ItemType.typeTreeItem
            "View and manage domain names" 1 false true,
          newListItem "Hosting plans" ItemType.typeTreeLastItem "" 1 false true ]
    | _ => []
  else []

/-- The list-rebuilding loop of `Model.UpdateMenuItems`
(`internal/ui/types/model.go` lines 111-153): every item with indent 0 is
kept, and when it is an expanded header its static children follow it;
every item with a non-zero indent is dropped (children are regenerated
from the expanded flags). -/
def rebuildItems : List ListItem → List ListItem
  | [] => []
  | curr :: rest =>
      if curr.indent == 0 then
        curr :: (childrenFor curr ++ rebuildItems rest)
      else
        rebuildItems rest

/-- Whether an item is a section header (`common.TypeHeader`). -/
def isHeader (x : ListItem) : Bool :=
  x.itemType == ItemType.typeHeader

/-- Local pre-order condition between two consecutive rows of the flattened
list: the indent may grow by at most one, and it grows exactly when the
previous row is an expanded header opening a child block. -/
def adjacentOK (x y : ListItem) : Bool :=
  decide (y.indent ≤ x.indent + 1) &&
    (!(y.indent == x.indent + 1) || (isHeader x && x.expanded))

/-- `chainOK x l` checks `adjacentOK` along `x :: l`. -/
def chainOK : ListItem → List ListItem → Bool
  | _, [] => true
  | x, y :: rest => adjacentOK x y && chainOK y rest

/-- A flattened menu list is locally well-formed: it starts at indent 0 and
each consecutive pair satisfies `adjacentOK`. -/
def scanOK : List ListItem → Bool
  | [] => true
  | x :: rest => x.indent == 0 && chainOK x rest

/-- The pre-order-traversal invariant of the flattened menu list, stated
positionally as in the claim: (1) every row with positive indent has a
nearest preceding row of smaller indent, that row is an expanded Header
whose indent is exactly one less, and every row strictly between the two
has indent at least the child's (so a child block immediately follows its
parent and ends before the parent's next sibling); (2) a collapsed Header
is immediately followed (if at all) by a row of indent at most its own, so
it has no children in the list. -/
def preorderInv (l : List ListItem) : Prop :=
  (∀ p, (hp : p < l.length) → 0 < (l.get ⟨p, hp⟩).indent →
    ∃ q, ∃ hq : q < l.length, q < p ∧
      isHeader (l.get ⟨q, hq⟩) = true ∧
      (l.get ⟨q, hq⟩).expanded = true ∧
      (l.get ⟨q, hq⟩).indent + 1 = (l.get ⟨p, hp⟩).indent ∧
      (∀ r, (hr : r < l.length) → q < r → r < p →
        (l.get ⟨p, hp⟩).indent ≤ (l.get ⟨r, hr⟩).indent)) ∧
  (∀ p, (hp : p < l.length) → isHeader (l.get ⟨p, hp⟩) = true →
    (l.get ⟨p, hp⟩).expanded = false →
    ∀ hp1 : p + 1 < l.length,
      (l.get ⟨p + 1, hp1⟩).indent ≤ (l.get ⟨p, hp⟩).indent)


/-- The `tea.Cmd` values the embedded handlers can return: only `tea.Quit`
is ever produced by the repository's own key handlers. -/
inductive UiCmd where
  | quitCmd
deriving DecidableEq, Repr

/-- The embedded UI model state: the fields of `types.Model`
(`internal/ui/types/model.go`) that the repository's own code reads or
writes, together with the cursor of the embedded list widget (`index`),
the applied widget sizes, and the process-wide border-emphasis state that
`styles.UpdateBorderStyles` mutates (`borderFocus`).  The `apiClient`,
`ActiveCommand` and `ServerList` fields carry no state observed by the
embedded handlers and are omitted; remote calls are modelled by an
`ApiOracle` parameter instead. -/
structure UIModelState where
  items : List ListItem
  index : Nat
  content : String
  statusMessage : String
  ready : Bool
  activePane : String
  width : Int
  height : Int
  showHelp : Bool
  listWidth : Int
  listHeight : Int
  vpWidth : Int
  vpHeight : Int
  borderFocus : String
deriving DecidableEq, Repr

/-- The title of the row the list cursor points at, if any
(`list.SelectedItem().Title()`). -/
def selectedTitle (s : UIModelState) : Option String :=
  (s.items.get? s.index).map ListItem.text

/-- `Model.ToggleActivePane` from `internal/ui/types/model.go`. -/
def toggleActivePaneM (s : UIModelState) : UIModelState :=
  if s.activePane == "menu" then { s with activePane := "content" }
  else { s with activePane := "menu" }

/-- `Model.SetSize` from `internal/ui/types/model.go`: stores the terminal
size and recomputes `Ready` as `width >= 80 && height >= 20`. -/
def setSize (s : UIModelState) (width height : Int) : UIModelState :=
  { s with width := width, height := height,
           ready := decide (80 ≤ width) && decide (20 ≤ height) }

/-- `Model.UpdateMenuItems` from `internal/ui/types/model.go` (lines
111-160): rebuilds the flattened list and then re-selects the previous
numeric index when it is still within the new list.  When the previous
index is out of range the Go code does nothing, leaving the cursor to the
external list widget; the embedding records the cursor as unchanged. -/
def updateMenuItems (s : UIModelState) : UIModelState :=
  let updatedItems := rebuildItems s.items
  { s with items := updatedItems,
           index := if s.index < updatedItems.length then s.index else s.index }

/-- `Model.ToggleItemExpanded` lifted to the model state. -/
def toggleItemExpandedM (s : UIModelState) (index : Int) : UIModelState :=
  { s with items := toggleItemExpanded s.items index }

/-!  Layout manager, `internal/ui/layout/layout.go` (the iteration with
`calculateDimensions`, lines 79-179). -/

/-- Fixed layout constants from `internal/ui/layout/layout.go`. -/
def MinWidth : Int := 80

/-- Minimum window height. -/
def MinHeight : Int := 20

/-- Base menu width. -/
def MenuWidth : Int := 32

/-- Space for status bar including borders. -/
def StatusBarSpace : Int := 3

/-- Space for title and borders. -/
def UIElementsSpace : Int := 2

/-- Total horizontal space for margins/padding. -/
def HorizontalSpace : Int := 9

/-- `layout.Dimensions`. -/
structure Dimensions where
  contentWidth : Int
  contentHeight : Int
  menuWidth : Int
  statusWidth : Int
deriving DecidableEq, Repr

/-- `Manager.calculateDimensions` (`internal/ui/layout/layout.go` lines
114-132): pane dimensions from the stored terminal size with the fixed
decoration allowances. -/
def calculateDimensions (s : UIModelState) : Dimensions :=
  { menuWidth := MenuWidth,
    contentWidth := s.width - MenuWidth - HorizontalSpace,
    contentHeight := s.height - StatusBarSpace - UIElementsSpace,
    statusWidth := s.width - 2 }

/-- `Manager.Update` (`internal/ui/layout/layout.go` lines 135-159): skips
when the model is not ready or a computed dimension is non-positive, and
otherwise applies the computed sizes to the list and viewport widgets. -/
def layoutUpdate (s : UIModelState) : UIModelState :=
  if !s.ready then s
  else
    let dims := calculateDimensions s
    if dims.contentWidth ≤ 0 || dims.contentHeight ≤ 0 then s
    else
      { s with listWidth := dims.menuWidth, listHeight := dims.contentHeight,
               vpWidth := dims.contentWidth, vpHeight := dims.contentHeight }

/-- `Manager.ValidateWindowSize` (`internal/ui/layout/layout.go` lines
162-174). -/
def validateWindowSize (width height : Int) : Bool :=
  decide (MinWidth ≤ width) && decide (MinHeight ≤ height)

/-!  Command facade (`internal/ui/handlers/commands.go`,
`internal/commands/command.go`, `internal/commands/me.go`). -/

/-- The identities of the two commands bound in `commandRegistry`
(`internal/ui/handlers/commands.go` lines 18-25). -/
inductive CommandId where
  | meCommand
  | apiInfoCommand
deriving DecidableEq, Repr

/-- `commandRegistry` from `internal/ui/handlers/commands.go`: the explicit
title-to-command binding; every other title is unbound. -/
def commandRegistry : String → Option CommandId
  | "My information" => some CommandId.meCommand
  | "API information" => some CommandId.apiInfoCommand
  | _ => none

/-- Oracle for the remote API: the outcome of running a bound command
(`Command.Execute`), of `ServerCommand.ListServers` (an id-to-name map,
given in the Go map's iteration order), of `Client.ListVPS`, and of
`Client.GetVPSInfo` followed by `GetDisplayTitle`.  The embedded code is
proved for every oracle, so every remote behaviour is covered. -/
structure ApiOracle where
  run : CommandId → Except String String
  servers : Except String (List (String × String))
  vps : Except String (List String)
  vpsInfo : String → Except String String

/-- `handleTreeCommand` from `internal/ui/handlers/commands.go` (lines
144-171).  The returned flag records whether an error was returned to the
caller (`handleEnterKey` then skips the layout update).  `SetContent` also
pushes the text into the viewport widget; the embedding keeps the single
`content` field the repository reads back. -/
def handleTreeCommandStep (o : ApiOracle) (s : UIModelState)
    (item : ListItem) : UIModelState × Bool :=
  match commandRegistry item.text with
  | none => ({ s with statusMessage := "Selected: " ++ item.text }, false)
  | some cid =>
      match o.run cid with
      | Except.error e =>
          ({ s with statusMessage := "Error: " ++ e,
                    content := "Failed to execute command: " ++ e }, true)
      | Except.ok output =>
          let s1 := { s with statusMessage := "Executed: " ++ item.text,
                             content := output }
          let s2 := toggleActivePaneM s1
          ({ s2 with borderFocus := s2.activePane }, false)

/-- The collapse-others loop of `handleTopLevelHeader`
(`internal/ui/handlers/commands.go` lines 69-81): every expanded top-level
header other than the clicked index is toggled off.  The Go loop reads the
item snapshot taken after the first toggle and calls
`model.ToggleItemExpanded(i)` for each qualifying index; the toggles hit
pairwise distinct indices, so the loop equals this positional map. -/
def collapseOtherHeaders (cur : Nat) : Nat → List ListItem → List ListItem
  | _, [] => []
  | i, x :: rest =>
      (if i ≠ cur ∧ x.itemType = ItemType.typeHeader ∧ x.indent = 0 ∧
          x.expanded = true
       then x.withExpanded false else x) :: collapseOtherHeaders cur (i + 1) rest

/-- Index of the first item satisfying a predicate (the `for ... break`
search loops of the handlers). -/
def firstIdxWhere (p : ListItem → Bool) : List ListItem → Option Nat
  | [] => none
  | x :: rest => if p x then some 0 else (firstIdxWhere p rest).map (· + 1)

/-- The reselect-by-title loop shared by the header handlers
(`internal/ui/handlers/commands.go` lines 87-98 and 124-135): select the
first item whose title equals the toggled header's, if any. -/
def reselectByTitle (title : String) (s : UIModelState) : UIModelState :=
  match firstIdxWhere (fun mi => mi.text == title) s.items with
  | some i => { s with index := i }
  | none => s

/-- `handleTopLevelHeader` from `internal/ui/handlers/commands.go` (lines
51-104).  `item` is the selected menu item, which the caller obtained from
the cursor position, so `currentIndex` is the cursor.  The direct Go index
expression `items[currentIndex]` is totalized with `getD`; the handler is
only invoked with the in-range cursor index. -/
def handleTopLevelHeaderStep (s : UIModelState) (item : ListItem) :
    UIModelState :=
  let currentIndex := s.index
  let headerTitle := item.text
  let items1 := toggleItemExpanded s.items (Int.ofNat currentIndex)
  let clickedExpanded := ((items1.get? currentIndex).map ListItem.expanded).getD false
  let items2 := if clickedExpanded then collapseOtherHeaders currentIndex 0 items1
                else items1
  let s3 := updateMenuItems { s with items := items2 }
  let s4 := reselectByTitle headerTitle s3
  { s4 with statusMessage := "Menu " ++ item.text ++ " " ++
      (if clickedExpanded then "expanded" else "collapsed") }

/-- `handleNestedHeader` from `internal/ui/handlers/commands.go` (lines
107-141), over the static `Model.UpdateMenuItems` of
`internal/ui/types/model.go`: toggles only the clicked index, rebuilds and
reselects by title.  The status message reports the negation of the old
item's expanded flag. -/
def handleNestedHeaderStep (s : UIModelState) (item : ListItem) :
    UIModelState :=
  let headerTitle := item.text
  let s2 := updateMenuItems
    { s with items := toggleItemExpanded s.items (Int.ofNat s.index) }
  let s3 := reselectByTitle headerTitle s2
  { s3 with statusMessage := "Section " ++ item.text ++ " " ++
      (if !item.expanded then "expanded" else "collapsed") }

/-- `HandleCommand` from `internal/ui/handlers/commands.go` (lines 28-48):
dispatch on the selected item's type; a header dispatches by indent, tree
items run the bound command, and `TypeNormal` (including the "Exit" row)
returns nil without doing anything. -/
def handleCommandStep (o : ApiOracle) (s : UIModelState) (item : ListItem) :
    UIModelState × Bool :=
  match item.itemType with
  | ItemType.typeHeader =>
      if item.indent == 0 then (handleTopLevelHeaderStep s item, false)
      else (handleNestedHeaderStep s item, false)
  | ItemType.typeTreeItem => handleTreeCommandStep o s item
  | ItemType.typeTreeLastItem => handleTreeCommandStep o s item
  | _ => (s, false)

/-- `handleEnter` from `internal/ui/handlers/updates.go` (lines 64-99):
only acts while the menu pane is active and an item is selected; on a
handler error it returns without the layout update. -/
def handleEnterStep (o : ApiOracle) (s : UIModelState) :
    UIModelState × Option UiCmd :=
  if s.activePane != "menu" then (s, none)
  else
    match s.items.get? s.index with
    | none => (s, none)
    | some menuItem =>
        match handleCommandStep o s menuItem with
        | (s1, true) => (s1, none)
        | (s1, false) => (layoutUpdate s1, none)

/-- `handleQuit` from `internal/ui/handlers/updates.go`: returns the model
unchanged together with `tea.Quit`. -/
def handleQuitStep (s : UIModelState) : UIModelState × Option UiCmd :=
  (s, some UiCmd.quitCmd)

/-- `Model.ToggleHelp` from `internal/ui/types/model.go`. -/
def toggleHelpM (s : UIModelState) : UIModelState :=
  let s1 := { s with showHelp := !s.showHelp }
  if s1.showHelp then
    { s1 with statusMessage := "Showing help (press F1 to close)" }
  else { s1 with statusMessage := "Help closed" }

/-- `handleHelp` from `internal/ui/handlers/updates.go`. -/
def handleHelpStep (s : UIModelState) : UIModelState × Option UiCmd :=
  (toggleHelpM s, none)

/-- `handlePaneToggle` from `internal/ui/handlers/updates.go`: flips the
active pane and refreshes the border emphasis
(`styles.UpdateBorderStyles`). -/
def handlePaneToggleStep (s : UIModelState) : UIModelState × Option UiCmd :=
  let s1 := toggleActivePaneM s
  ({ s1 with borderFocus := s1.activePane }, none)

/-- `handleTopNav` from `internal/ui/handlers/updates.go`: in the content
pane the viewport scroll position belongs to the external widget and only
the status message is recorded; in the menu pane the list widget receives
the Home key, which moves its cursor to the first row. -/
def handleTopNavStep (s : UIModelState) : UIModelState × Option UiCmd :=
  if s.activePane == "content" then
    ({ s with statusMessage := "Navigated to top of content" }, none)
  else ({ s with index := 0 }, none)

/-- `handleBottomNav` from `internal/ui/handlers/updates.go`: mirror image
of `handleTopNavStep`. -/
def handleBottomNavStep (s : UIModelState) : UIModelState × Option UiCmd :=
  if s.activePane == "content" then
    ({ s with statusMessage := "Navigated to bottom of content" }, none)
  else ({ s with index := s.items.length - 1 }, none)

/-- `KeyMap` from `internal/ui/handlers/updates.go` (lines 17-29): the
registered key bindings ("up"/"down" entries are commented out in the
source). -/
def keyMapLookup (o : ApiOracle) :
    String → Option (UIModelState → UIModelState × Option UiCmd)
  | "q" => some handleQuitStep
  | "ctrl+c" => some handleQuitStep
  | "f1" => some handleHelpStep
  | "tab" => some handlePaneToggleStep
  | "enter" => some (handleEnterStep o)
  | "g" => some handleTopNavStep
  | "G" => some handleBottomNavStep
  | _ => none

/-- `HandleKeyMsg` from `internal/ui/handlers/updates.go` (lines 35-46):
while the model is not ready every key is discarded; otherwise the
registered handler for the key runs, and unregistered keys do nothing. -/
def handleKeyMsg (o : ApiOracle) (s : UIModelState) (key : String) :
    UIModelState × Option UiCmd :=
  if !s.ready then (s, none)
  else
    match keyMapLookup o key with
    | some h => h s
    | none => (s, none)

/-!  The dynamically-fetching iteration of `Model.UpdateMenuItems`
(`src/unnamed/part_010`, lines 125-322), which regenerates the
Bare Metal Cloud section with nested "Dedicated Servers" and
"Virtual Private Servers" headers and their remotely fetched rows. -/

/-- Insertion of a pair into a name-sorted list; `sortPairsByName` models
the `sort.Slice(..., by name)` calls of `src/unnamed/part_010`.  The Go
sort is an unstable comparison sort over the nondeterministic map
iteration order; the oracle fixes one iteration order and any comparison
sort of it is a faithful model. -/
def insertByName (p : String × String) :
    List (String × String) → List (String × String)
  | [] => [p]
  | q :: rest =>
      if p.1 ≤ q.1 then p :: q :: rest else q :: insertByName p rest

/-- Name-ascending insertion sort of (name, id) pairs. -/
def sortPairsByName : List (String × String) → List (String × String)
  | [] => []
  | p :: rest => insertByName p (sortPairsByName rest)

/-- Remote rows appended below a nested header: `TypeTreeItem` for every
row except the last, which is `TypeTreeLastItem`; title is the display
name, description the remote id, indent 2. -/
def remoteRows : List (String × String) → List ListItem
  | [] => []
  | p :: rest =>
      newListItem p.1
        (if rest.isEmpty then ItemType.typeTreeLastItem
         else ItemType.typeTreeItem) p.2 2 false true :: remoteRows rest

/-- The rows below an expanded "Dedicated Servers" header
(`src/unnamed/part_010` lines 194-230): the sorted server list, or a
single synthetic error row when the fetch fails. -/
def serverRows (o : ApiOracle) : List ListItem :=
  match o.servers with
  | Except.error e =>
      [newListItem "Error loading servers" ItemType.typeTreeLastItem e 2
        false true]
  | Except.ok pairs => remoteRows (sortPairsByName pairs)

/-- The rows below an expanded "Virtual Private Servers" header
(`src/unnamed/part_010` lines 254-300): ids are resolved to display names
(failures are skipped), sorted by name; a fetch failure yields one
synthetic error row. -/
def vpsRows (o : ApiOracle) : List ListItem :=
  match o.vps with
  | Except.error e =>
      [newListItem "Error loading VPS instances" ItemType.typeTreeLastItem e 2
        false true]
  | Except.ok ids =>
      remoteRows (sortPairsByName (ids.filterMap (fun id =>
        match o.vpsInfo id with
        | Except.error _ => none
        | Except.ok name => some (name, id))))

/-- The first item of the old list with indent 1 and the given title
(the state-lookup loops of `src/unnamed/part_010`). -/
def findNested (items : List ListItem) (title : String) : Option ListItem :=
  items.find? (fun old => old.indent == 1 && old.text == title)

/-- The fresh "Dedicated Servers" header built when no previous one exists
(`src/unnamed/part_010` lines 185-190); `isDedServersExpanded` is false in
that case. -/
def freshDedHeader : ListItem :=
  newListItem "Dedicated Servers" ItemType.typeHeader
    "View and manage servers" 1 false true

/-- The fresh "Virtual Private Servers" header
(`src/unnamed/part_010` lines 246-251). -/
def freshVpsHeader : ListItem :=
  newListItem "Virtual Private Servers" ItemType.typeHeader
    "Virtual Private Servers" 1 false true

/-- The Bare Metal Cloud block of the dynamic rebuild
(`src/unnamed/part_010` lines 170-300): the preserved (or fresh) nested
headers with their remote rows when expanded. -/
def bmcChildren (o : ApiOracle) (current : List ListItem) : List ListItem :=
  let dedItem := (findNested current "Dedicated Servers").getD freshDedHeader
  let vpsItem := (findNested current "Virtual Private Servers").getD freshVpsHeader
  (dedItem :: (if dedItem.expanded then serverRows o else [])) ++
    (vpsItem :: (if vpsItem.expanded then vpsRows o else []))

/-- Child rows of the dynamic rebuild (`src/unnamed/part_010`): the static
sections are rebuilt through `addChildItems`, which recreates the same
tree rows, and Bare Metal Cloud through the nested-header logic. -/
def childrenForDyn (o : ApiOracle) (current : List ListItem)
    (curr : ListItem) : List ListItem :=
  if curr.itemType == ItemType.typeHeader && curr.expanded then
    match curr.text with
    | "Account Information" =>
        [ newListItem "My information" ItemType.typeTreeItem
            "View and manage my current information" 1 false true,
          newListItem "API information" ItemType.typeTreeLastItem
            "Information about applications and credentials" 1 false true ]
    | "Bare Metal Cloud" => bmcChildren o current
    | "Web Cloud" =>
        [ newListItem "Domain names" ItemType.typeTreeItem
            "View and manage domain names" 1 false true,
          newListItem "Hosting plans" ItemType.typeTreeLastItem "" 1 false true ]
    | _ => []
  else []

/-- The rebuilding loop of the dynamic `Model.UpdateMenuItems`
(`src/unnamed/part_010` lines 148-314); `current` is the full old list the
nested-state lookups scan. -/
def rebuildItemsDynAux (o : ApiOracle) (current : List ListItem) :
    List ListItem → List ListItem
  | [] => []
  | curr :: rest =>
      if curr.indent == 0 then
        curr :: (childrenForDyn o current curr ++ rebuildItemsDynAux o current rest)
      else rebuildItemsDynAux o current rest

/-- The dynamic `Model.UpdateMenuItems` on the item list. -/
def rebuildItemsDyn (o : ApiOracle) (items : List ListItem) : List ListItem :=
  rebuildItemsDynAux o items items

/-- The dynamic `Model.UpdateMenuItems` on the model state, with the same
index-preservation epilogue as the static one (`src/unnamed/part_010`
lines 316-321). -/
def updateMenuItemsDyn (o : ApiOracle) (s : UIModelState) : UIModelState :=
  let updatedItems := rebuildItemsDyn o s.items
  { s with items := updatedItems,
           index := if s.index < updatedItems.length then s.index else s.index }

/-- `handleNestedHeader` composed with the dynamic `UpdateMenuItems` of
the same iteration (`src/unnamed/part_010`). -/
def handleNestedHeaderDyn (o : ApiOracle) (s : UIModelState)
    (item : ListItem) : UIModelState :=
  let headerTitle := item.text
  let s2 := updateMenuItemsDyn o
    { s with items := toggleItemExpanded s.items (Int.ofNat s.index) }
  let s3 := reselectByTitle headerTitle s2
  { s3 with statusMessage := "Section " ++ item.text ++ " " ++
      (if !item.expanded then "expanded" else "collapsed") }

/-!  Asynchronous execution (`internal/commands/command.go`,
`MeCommand.ExecuteAsync` in `internal/commands/me.go` lines 56-80). -/

/-- `commands.CommandState`. -/
inductive CommandState where
  | stateNew
  | stateRunning
  | stateCompleted
  | stateFailed
deriving DecidableEq, Repr

/-- `commands.CommandResult`; `Duration` is in nanoseconds. -/
structure CommandResult where
  output : String
  error : Option String
  duration : Nat
  state : CommandState
deriving DecidableEq, Repr

/-- One observable event on the result channel of `ExecuteAsync`. -/
inductive ChanEvent where
  | send (r : CommandResult)
  | chanClose
deriving DecidableEq, Repr

/-- What one run of `executeCommand` produced inside the goroutine of
`ExecuteAsync`: its output, error and measured duration. -/
structure ExecOutcome where
  output : String
  err : Option String
  duration : Nat
deriving DecidableEq, Repr

/-- The buffer size of the channel created by `ExecuteAsync`
(`make(chan CommandResult, 1)`). -/
def executeAsyncBuffer : Nat := 1

/-- The `CommandResult` the goroutine assembles: `StateCompleted`, or
`StateFailed` when `executeCommand` returned an error. -/
def mkCommandResult (e : ExecOutcome) : CommandResult :=
  { output := e.output, error := e.err, duration := e.duration,
    state := if e.err.isSome then CommandState.stateFailed
             else CommandState.stateCompleted }

/-- The channel-event trace of the goroutine spawned by
`MeCommand.ExecuteAsync`: the goroutine body sends the single assembled
result and the deferred `close(resultCh)` then closes the channel.  The
goroutine is the only sender and runs straight-line code, so its trace is
this sequence for every execution outcome. -/
def executeAsyncEvents (e : ExecOutcome) : List ChanEvent :=
  [ChanEvent.send (mkCommandResult e), ChanEvent.chanClose]

/-- Whether a channel event is a delivery. -/
def isSendEvent : ChanEvent → Bool
  | ChanEvent.send _ => true
  | ChanEvent.chanClose => false

/-- No delivery happens at or after the close of the channel. -/
def noSendAfterClose : List ChanEvent → Bool
  | [] => true
  | ChanEvent.send _ :: rest => noSendAfterClose rest
  | ChanEvent.chanClose :: rest => rest.all (fun ev => !(isSendEvent ev))

/-- One `toggleExpanded` + `rebuild` cycle on the flattened item list. -/
def toggleRebuildOp (s : List ListItem) (i : Int) : List ListItem :=
  rebuildItems (toggleItemExpanded s i)

/-- The flattened menu after an arbitrary sequence of toggle+rebuild
cycles starting from the initial menu. -/
def menuAfterOps (ops : List Int) : List ListItem :=
  ops.foldl toggleRebuildOp createBaseMenuItems

/-- A ready model state over the given menu with the cursor at `index`:
the state reached after startup (`NewModel`, `Initialize`) and a
successful resize, used for concrete scenarios. -/
def mkState (items : List ListItem) (index : Nat) (ready : Bool) :
    UIModelState :=
  { items := items, index := index,
    content := "Welcome to OVH Terminal Client!", statusMessage := "",
    ready := ready, activePane := "menu", width := 100, height := 30,
    showHelp := false, listWidth := 32, listHeight := 25, vpWidth := 59,
    vpHeight := 25, borderFocus := "menu" }

/-- A concrete oracle for closed scenarios: every remote call fails. -/
def offlineOracle : ApiOracle :=
  { run := fun _ => Except.error "offline",
    servers := Except.error "offline",
    vps := Except.error "offline",
    vpsInfo := fun _ => Except.error "offline" }

/-- Concrete scenario state for the rebuild-selection claim:
"Account Information" is expanded (not yet rebuilt) and the cursor sits on
"Web Cloud" (index 2). -/
def webCloudSelectedState : UIModelState :=
  mkState (toggleItemExpanded createBaseMenuItems 0) 2 true

/-- The collapsed "Account Information" top-level header row. -/
def aiRow : ListItem :=
  newListItem "Account Information" ItemType.typeHeader "" 0 false true

/-- The expanded "Bare Metal Cloud" top-level header row. -/
def bmcRowExpanded : ListItem :=
  newListItem "Bare Metal Cloud" ItemType.typeHeader "" 0 true true

/-- The collapsed "Web Cloud" top-level header row. -/
def wcRow : ListItem :=
  newListItem "Web Cloud" ItemType.typeHeader "" 0 false true

/-- The "Exit" row. -/
def exitRow : ListItem :=
  newListItem "Exit" ItemType.typeNormal "Exit the application" 0 false true

/-- The nested "Dedicated Servers" header with a given expanded flag. -/
def dedRow (e : Bool) : ListItem :=
  { freshDedHeader with expanded := e }

/-- The nested "Virtual Private Servers" header with a given expanded
flag. -/
def vpsRow (e : Bool) : ListItem :=
  { freshVpsHeader with expanded := e }

/-- The family of menu lists in which "Bare Metal Cloud" is expanded and
its two nested headers carry the given expanded flags, as produced by the
dynamic rebuild (`src/unnamed/part_010`): rows 0-2 are "Account
Information", "Bare Metal Cloud", "Dedicated Servers". -/
def bmcMenuItems (dedE vpsE : Bool) (o : ApiOracle) : List ListItem :=
  aiRow :: bmcRowExpanded :: dedRow dedE ::
    ((if dedE then serverRows o else []) ++
      (vpsRow vpsE ::
        ((if vpsE then vpsRows o else []) ++ [wcRow, exitRow])))

/-- `bmcMenuItems` after toggling the "Dedicated Servers" row (index 2). -/
def toggledBmcItems (dedE vpsE : Bool) (o : ApiOracle) : List ListItem :=
  aiRow :: bmcRowExpanded :: dedRow (!dedE) ::
    ((if dedE then serverRows o else []) ++
      (vpsRow vpsE ::
        ((if vpsE then vpsRows o else []) ++ [wcRow, exitRow])))

/-- The model state over `bmcMenuItems` with the cursor on the nested
"Dedicated Servers" header (index 2). -/
def bmcState (dedE vpsE : Bool) (o : ApiOracle) : UIModelState :=
  mkState (bmcMenuItems dedE vpsE o) 2 true

/-- Every child row generated by the rebuild loop has indent 1, is not a
header, and is collapsed. -/
theorem childrenFor_mem {curr x : ListItem} (hx : x ∈ childrenFor curr) :
    x.indent = 1 ∧ isHeader x = false ∧ x.expanded = false := by
  unfold childrenFor at hx
  by_cases hh : (curr.itemType == ItemType.typeHeader && curr.expanded) = true
  · rw [if_pos hh] at hx
    split at hx <;>
        simp only [newListItem, List.mem_cons, List.not_mem_nil, or_false]
          at hx <;>
      first
      | exact hx.elim
      | (rcases hx with hx | hx <;> subst hx <;> exact ⟨rfl, by decide, rfl⟩)
  · rw [if_neg hh] at hx
    simp at hx

/-- The rebuild loop emits either no children or exactly a pair. -/
theorem childrenFor_nil_or_pair (curr : ListItem) :
    childrenFor curr = [] ∨ ∃ k1 k2, childrenFor curr = [k1, k2] := by
  unfold childrenFor
  by_cases hh : (curr.itemType == ItemType.typeHeader && curr.expanded) = true
  · rw [if_pos hh]
    split
    · right; exact ⟨_, _, rfl⟩
    · right; exact ⟨_, _, rfl⟩
    · right; exact ⟨_, _, rfl⟩
    · left; rfl
  · rw [if_neg hh]; left; rfl

/-- Children are only generated below an expanded header. -/
theorem childrenFor_ne_nil {curr : ListItem} (h : childrenFor curr ≠ []) :
    isHeader curr = true ∧ curr.expanded = true := by
  by_cases hh : (curr.itemType == ItemType.typeHeader && curr.expanded) = true
  · rw [Bool.and_eq_true] at hh
    exact ⟨by simpa [isHeader] using hh.1, hh.2⟩
  · exact absurd (by unfold childrenFor; rw [if_neg hh]) h

/-- A child block chains correctly between its indent-0 parent and any
suffix that itself chains after an arbitrary predecessor. -/
theorem chainOK_childrenFor_append (curr : ListItem) (ys : List ListItem)
    (h0 : curr.indent = 0) (hys : ∀ prev : ListItem, chainOK prev ys = true) :
    chainOK curr (childrenFor curr ++ ys) = true := by
  rcases childrenFor_nil_or_pair curr with hnil | ⟨k1, k2, hpair⟩
  · rw [hnil, List.nil_append]; exact hys curr
  · have hcur : isHeader curr = true ∧ curr.expanded = true :=
      childrenFor_ne_nil (by rw [hpair]; simp)
    have hk1 : k1 ∈ childrenFor curr := by rw [hpair]; simp
    have hk2 : k2 ∈ childrenFor curr := by rw [hpair]; simp
    obtain ⟨hi1, -, -⟩ := childrenFor_mem hk1
    obtain ⟨hi2, -, -⟩ := childrenFor_mem hk2
    have ha1 : adjacentOK curr k1 = true := by
      simp [adjacentOK, h0, hi1, hcur.1, hcur.2]
    have ha2 : adjacentOK k1 k2 = true := by
      simp [adjacentOK, hi1, hi2]
    rw [hpair]
    simp only [List.cons_append, List.nil_append, chainOK]
    simp [ha1, ha2, hys k2]

/-- Any list produced by the rebuild loop chains correctly after any
predecessor row, because its first row (if any) has indent 0. -/
theorem chainOK_rebuildItems (xs : List ListItem) :
    ∀ prev : ListItem, chainOK prev (rebuildItems xs) = true := by
  induction xs with
  | nil => intro prev; rfl
  | cons curr rest ih =>
      intro prev
      by_cases h0 : curr.indent = 0
      · rw [show rebuildItems (curr :: rest) =
              curr :: (childrenFor curr ++ rebuildItems rest) by
            simp [rebuildItems, h0]]
        have hadj : adjacentOK prev curr = true := by
          simp [adjacentOK, h0]
        simp only [chainOK, hadj, Bool.true_and]
        exact chainOK_childrenFor_append curr _ h0 ih
      · rw [show rebuildItems (curr :: rest) = rebuildItems rest by
            simp [rebuildItems, h0]]
        exact ih prev

/-- The rebuild loop always outputs a locally well-formed flattened list,
whatever list it is given. -/
theorem scanOK_rebuildItems (xs : List ListItem) :
    scanOK (rebuildItems xs) = true := by
  induction xs with
  | nil => rfl
  | cons curr rest ih =>
      by_cases h0 : curr.indent = 0
      · rw [show rebuildItems (curr :: rest) =
              curr :: (childrenFor curr ++ rebuildItems rest) by
            simp [rebuildItems, h0]]
        simp only [scanOK, h0, beq_self_eq_true, Bool.true_and]
        exact chainOK_childrenFor_append curr _ h0 (chainOK_rebuildItems rest)
      · rw [show rebuildItems (curr :: rest) = rebuildItems rest by
            simp [rebuildItems, h0]]
        exact ih

/-- Unfolding of the local pre-order condition. -/
theorem adjacentOK_true_iff (x y : ListItem) :
    adjacentOK x y = true ↔
      y.indent ≤ x.indent + 1 ∧
        (y.indent = x.indent + 1 → isHeader x = true ∧ x.expanded = true) := by
  simp only [adjacentOK, Bool.and_eq_true, Bool.or_eq_true, Bool.not_eq_true',
    beq_eq_false_iff_ne, ne_eq, decide_eq_true_eq, beq_iff_eq]
  tauto

/-- In a locally well-formed list the first row has indent 0. -/
theorem scanOK_head {l : List ListItem} (hs : scanOK l = true)
    (h0 : 0 < l.length) : (l.get ⟨0, h0⟩).indent = 0 := by
  cases l with
  | nil => simp at h0
  | cons x rest =>
      simp only [scanOK, Bool.and_eq_true, beq_iff_eq] at hs
      simpa using hs.1

/-- Consecutive rows of a chain satisfy the local condition. -/
theorem chainOK_get_adj :
    ∀ (l : List ListItem) (x : ListItem), chainOK x l = true →
      ∀ r, (hr : r + 1 < (x :: l).length) →
        adjacentOK ((x :: l).get ⟨r, by omega⟩) ((x :: l).get ⟨r + 1, hr⟩) =
          true := by
  intro l
  induction l with
  | nil =>
      intro x _ r hr
      simp at hr
  | cons y rest ih =>
      intro x hc r hr
      simp only [chainOK, Bool.and_eq_true] at hc
      cases r with
      | zero => simpa using hc.1
      | succ s =>
          have := ih y hc.2 s (by simpa using hr)
          simpa using this

/-- Consecutive rows of a locally well-formed list satisfy the local
condition. -/
theorem scanOK_get_adj {l : List ListItem} (hs : scanOK l = true) :
    ∀ r, (hr : r + 1 < l.length) →
      adjacentOK (l.get ⟨r, by omega⟩) (l.get ⟨r + 1, hr⟩) = true := by
  cases l with
  | nil => intro r hr; simp at hr
  | cons x rest =>
      simp only [scanOK, Bool.and_eq_true, beq_iff_eq] at hs
      exact chainOK_get_adj rest x hs.2

/-- Local well-formedness implies the positional pre-order invariant. -/
theorem scanOK_implies_preorderInv {l : List ListItem}
    (hs : scanOK l = true) : preorderInv l := by
  classical
  constructor
  · intro p hp hpos
    -- `ind k` reads the indent at position `k` (default beyond the end).
    set ind : Nat → Nat := fun k => (l.getD k default).indent with hind
    have hgetD : ∀ k, (hk : k < l.length) → ind k = (l.get ⟨k, hk⟩).indent := by
      intro k hk
      simp [hind, List.getD, List.getElem?_eq_getElem hk]
    have hp0 : 0 < p := by
      rcases Nat.eq_zero_or_pos p with h | h
      · subst h
        have := scanOK_head hs hp
        omega
      · exact h
    have hind0 : ind 0 = 0 := by
      rw [hgetD 0 (by omega)]
      exact scanOK_head hs (by omega)
    have hindp : ind p = (l.get ⟨p, hp⟩).indent := hgetD p hp
    set P : Nat → Prop := fun k => k < p ∧ ind k < ind p with hP
    have hP0 : P 0 := by constructor <;> omega
    set q := Nat.findGreatest P p with hqdef
    have hPq : P q := Nat.findGreatest_spec (Nat.zero_le p) hP0
    have hqp : q < p := hPq.1
    have hql : q < l.length := by omega
    have hbetween : ∀ r, q < r → r < p → ind p ≤ ind r := by
      intro r hqr hrp
      have hnot : ¬P r :=
        Nat.findGreatest_is_greatest (by omega : q < r) (by omega : r ≤ p)
      simp only [hP] at hnot
      push_neg at hnot
      exact hnot hrp
    have hq1l : q + 1 < l.length := by omega
    have hadj := scanOK_get_adj hs q hq1l
    rw [adjacentOK_true_iff] at hadj
    have hstep : ind (q + 1) ≤ ind q + 1 := by
      rw [hgetD (q + 1) hq1l, hgetD q hql]
      exact hadj.1
    have hkey : ind q + 1 = ind p ∧ ind (q + 1) = ind q + 1 := by
      rcases Nat.lt_or_ge (q + 1) p with hlt | hge
      · have h1 := hbetween (q + 1) (by omega) hlt
        have h2 := hPq.2
        omega
      · have hqp1 : q + 1 = p := by omega
        have h2 := hPq.2
        rw [hqp1] at hstep ⊢
        omega
    have hhead : isHeader (l.get ⟨q, hql⟩) = true ∧
        (l.get ⟨q, hql⟩).expanded = true := by
      apply hadj.2
      rw [← hgetD (q + 1) hq1l, ← hgetD q hql]
      exact hkey.2
    refine ⟨q, hql, hqp, hhead.1, hhead.2, ?_, ?_⟩
    · rw [← hgetD q hql, ← hgetD p hp]
      exact hkey.1
    · intro r hr hqr hrp
      have := hbetween r hqr hrp
      rw [hgetD r hr, hgetD p hp] at this
      exact this
  · intro p hp hhead hexp hp1
    have hadj := scanOK_get_adj hs p hp1
    rw [adjacentOK_true_iff] at hadj
    by_contra hgt
    push_neg at hgt
    have heq : (l.get ⟨p + 1, hp1⟩).indent = (l.get ⟨p, hp⟩).indent + 1 := by
      have := hadj.1
      omega
    have := (hadj.2 heq).2
    rw [hexp] at this
    exact Bool.false_ne_true this

/-- Rebuilding ignores a prefix of child rows (indent ≠ 0). -/
theorem rebuildItems_append_of_nonzero {as : List ListItem}
    (bs : List ListItem) (h : ∀ x ∈ as, x.indent ≠ 0) :
    rebuildItems (as ++ bs) = rebuildItems bs := by
  induction as with
  | nil => rfl
  | cons a as ih =>
      have ha : a.indent ≠ 0 := h a (by simp)
      rw [List.cons_append,
        show rebuildItems (a :: (as ++ bs)) = rebuildItems (as ++ bs) by
          simp [rebuildItems, ha]]
      exact ih (fun x hx => h x (by simp [hx]))

/-- Scan well-formedness is preserved along any toggle+rebuild sequence. -/
theorem scanOK_foldl_toggleRebuild (ops : List Int) (s : List ListItem)
    (hs : scanOK s = true) :
    scanOK (ops.foldl toggleRebuildOp s) = true := by
  induction ops generalizing s with
  | nil => simpa using hs
  | cons i rest ih =>
      simp only [List.foldl_cons]
      exact ih _ (scanOK_rebuildItems _)

/-- Claim C2: starting from the initial menu, any sequence of
toggleExpanded-plus-rebuild cycles leaves the flattened list a valid
pre-order traversal — every row with positive indent sits exactly one
indent below its nearest preceding ancestor row, which is an expanded
Header (so an expanded Header's children follow it immediately, before
the next row of its own indent), and a collapsed Header is never followed
by a deeper row, i.e. has no children in the list. -/
theorem menu_preorder_invariant (ops : List Int) :
    preorderInv (menuAfterOps ops) :=
  scanOK_implies_preorderInv
    (scanOK_foldl_toggleRebuild ops createBaseMenuItems (by decide))

/-- A witness instance of the pre-order invariant after a concrete
sequence of cycles (expand "Account Information", expand "Web Cloud",
toggle a child row, collapse "Web Cloud"). -/
theorem menu_preorder_invariant_witness :
    preorderInv (menuAfterOps [0, 4, 1, 3]) :=
  menu_preorder_invariant [0, 4, 1, 3]

/-- Rebuilding is idempotent on the item list. -/
theorem rebuildItems_idem (xs : List ListItem) :
    rebuildItems (rebuildItems xs) = rebuildItems xs := by
  induction xs with
  | nil => rfl
  | cons curr rest ih =>
      by_cases h0 : curr.indent = 0
      · rw [show rebuildItems (curr :: rest) =
              curr :: (childrenFor curr ++ rebuildItems rest) by
            simp [rebuildItems, h0]]
        rw [show rebuildItems (curr :: (childrenFor curr ++ rebuildItems rest)) =
              curr :: (childrenFor curr ++
                rebuildItems (childrenFor curr ++ rebuildItems rest)) by
            simp [rebuildItems, h0]]
        rw [rebuildItems_append_of_nonzero _
          (fun x hx => by rw [(childrenFor_mem hx).1]; omega), ih]
      · rw [show rebuildItems (curr :: rest) = rebuildItems rest by
              simp [rebuildItems, h0]]
        exact ih

/-- Claim C8: `rebuild()` is idempotent — rebuilding twice in a row with
no intervening mutation produces exactly the same flattened list (and the
same cursor) as rebuilding once, for every model state. -/
theorem updateMenuItems_idem (s : UIModelState) :
    updateMenuItems (updateMenuItems s) = updateMenuItems s := by
  simp [updateMenuItems, rebuildItems_idem]

/-- Claim C5, counterexample: the claim says `toggleExpanded` is a no-op
when the item at the index is not a Header, but toggling the "Exit" row
(`TypeNormal`, index 3 of the initial menu) changes the list: the Go
method flips `expanded` on any `ListItem` without checking its type. -/
theorem toggle_non_header_not_noop :
    (createBaseMenuItems.get? 3).map ListItem.itemType =
        some ItemType.typeNormal ∧
      toggleItemExpanded createBaseMenuItems 3 ≠ createBaseMenuItems := by
  decide

/-- Claim C5 (amended): `toggleExpanded(index)` is a silent no-op exactly
when `index` is out of range; at any in-range index it flips the
`expanded` flag of the item — whatever its kind, Header or not — and
leaves every other item unchanged. -/
theorem toggleItemExpanded_spec (items : List ListItem) (index : Int) :
    ((index < 0 ∨ (items.length : Int) ≤ index) →
      toggleItemExpanded items index = items) ∧
    (∀ (h0 : 0 ≤ index) (h1 : index < (items.length : Int)),
      toggleItemExpanded items index =
        items.set index.toNat
          ((items.get ⟨index.toNat, by omega⟩).withExpanded
            (!(items.get ⟨index.toNat, by omega⟩).expanded))) := by
  constructor
  · intro h
    unfold toggleItemExpanded
    rw [if_pos]
    simp only [Bool.or_eq_true, decide_eq_true_eq]
    omega
  · intro h0 h1
    have hn : index.toNat < items.length := by omega
    unfold toggleItemExpanded
    rw [if_neg]
    · rw [List.get?_eq_get hn]
    · simp only [Bool.or_eq_true, decide_eq_true_eq]
      omega

/-- Claim C5, witness: concrete instances of both parts — toggling index 7
of the 4-row initial menu is a no-op, and toggling index 1 flips the
"Bare Metal Cloud" header in place. -/
theorem toggleItemExpanded_spec_witness :
    toggleItemExpanded createBaseMenuItems 7 = createBaseMenuItems ∧
      toggleItemExpanded createBaseMenuItems 1 =
        createBaseMenuItems.set 1
          ((createBaseMenuItems.get ⟨1, by decide⟩).withExpanded
            (!(createBaseMenuItems.get ⟨1, by decide⟩).expanded)) :=
  ⟨(toggleItemExpanded_spec createBaseMenuItems 7).1 (Or.inr (by decide)),
    (toggleItemExpanded_spec createBaseMenuItems 1).2 (by decide) (by decide)⟩

/-- An in-range toggle replaces exactly the addressed item by its
expanded-flipped copy. -/
theorem toggleItemExpanded_set (items : List ListItem) (cur : Nat)
    (h : cur < items.length) :
    toggleItemExpanded items (Int.ofNat cur) =
      items.set cur
        ((items.get ⟨cur, h⟩).withExpanded
          (!(items.get ⟨cur, h⟩).expanded)) := by
  unfold toggleItemExpanded
  rw [if_neg]
  · rw [show (Int.ofNat cur).toNat = cur from rfl, List.get?_eq_get h]
  · simp only [Bool.or_eq_true, decide_eq_true_eq, Int.ofNat_eq_coe]
    omega

/-- An indent-0 item survives the rebuild. -/
theorem mem_rebuildItems_of_indent0 {x : ListItem} {l : List ListItem}
    (hx : x ∈ l) (h0 : x.indent = 0) : x ∈ rebuildItems l := by
  induction l with
  | nil => simp at hx
  | cons curr rest ih =>
      rcases List.mem_cons.mp hx with rfl | hmem
      · rw [show rebuildItems (x :: rest) =
              x :: (childrenFor x ++ rebuildItems rest) by
            simp [rebuildItems, h0]]
        exact List.mem_cons_self x _
      · by_cases hc : curr.indent = 0
        · rw [show rebuildItems (curr :: rest) =
                curr :: (childrenFor curr ++ rebuildItems rest) by
              simp [rebuildItems, hc]]
          exact List.mem_cons_of_mem curr
            (List.mem_append_right _ (ih hmem))
        · rw [show rebuildItems (curr :: rest) = rebuildItems rest by
              simp [rebuildItems, hc]]
          exact ih hmem

/-- Every header in the rebuilt list is an indent-0 header of the input
list: generated children are never headers. -/
theorem header_mem_rebuildItems {x : ListItem} {l : List ListItem}
    (hx : x ∈ rebuildItems l) (hh : x.itemType = ItemType.typeHeader) :
    x ∈ l ∧ x.indent = 0 := by
  induction l with
  | nil => simp [rebuildItems] at hx
  | cons curr rest ih =>
      by_cases hc : curr.indent = 0
      · rw [show rebuildItems (curr :: rest) =
              curr :: (childrenFor curr ++ rebuildItems rest) by
            simp [rebuildItems, hc]] at hx
        rcases List.mem_cons.mp hx with rfl | hmem
        · exact ⟨List.mem_cons_self _ _, hc⟩
        · rcases List.mem_append.mp hmem with hkid | hrest
          · obtain ⟨-, hnothdr, -⟩ := childrenFor_mem hkid
            rw [isHeader, hh] at hnothdr
            simp at hnothdr
          · obtain ⟨h1, h2⟩ := ih hrest
            exact ⟨List.mem_cons_of_mem _ h1, h2⟩
      · rw [show rebuildItems (curr :: rest) = rebuildItems rest by
            simp [rebuildItems, hc]] at hx
        obtain ⟨h1, h2⟩ := ih hx
        exact ⟨List.mem_cons_of_mem _ h1, h2⟩

/-- The collapse-others loop keeps the list length. -/
theorem collapseOtherHeaders_length (cur : Nat) :
    ∀ (i : Nat) (l : List ListItem),
      (collapseOtherHeaders cur i l).length = l.length := by
  intro i l
  induction l generalizing i with
  | nil => rfl
  | cons x rest ih => simp [collapseOtherHeaders, ih]

/-- Row `j` of the collapse-others loop output, with the loop counter
started at `i`. -/
theorem collapseOtherHeaders_get (cur : Nat) :
    ∀ (l : List ListItem) (i j : Nat) (hj : j < l.length),
      (collapseOtherHeaders cur i l).get
          ⟨j, by rw [collapseOtherHeaders_length]; exact hj⟩ =
        (if i + j ≠ cur ∧ (l.get ⟨j, hj⟩).itemType = ItemType.typeHeader ∧
            (l.get ⟨j, hj⟩).indent = 0 ∧ (l.get ⟨j, hj⟩).expanded = true
         then (l.get ⟨j, hj⟩).withExpanded false else l.get ⟨j, hj⟩) := by
  intro l
  induction l with
  | nil => intro i j hj; simp at hj
  | cons x rest ih =>
      intro i j hj
      cases j with
      | zero => simp [collapseOtherHeaders]
      | succ k =>
          have hk : k < rest.length := by simpa using hj
          have := ih (i + 1) k hk
          simp only [collapseOtherHeaders, List.get_cons_succ]
          rw [show i + 1 + k = i + (k + 1) by omega] at this
          exact this

/-- Members of the collapse-others output are pointwise images of the
input rows. -/
theorem collapseOtherHeaders_mem (cur : Nat) (l : List ListItem)
    {x : ListItem} (hx : x ∈ collapseOtherHeaders cur 0 l) :
    ∃ j, ∃ hj : j < l.length,
      x = (if j ≠ cur ∧ (l.get ⟨j, hj⟩).itemType = ItemType.typeHeader ∧
              (l.get ⟨j, hj⟩).indent = 0 ∧ (l.get ⟨j, hj⟩).expanded = true
           then (l.get ⟨j, hj⟩).withExpanded false else l.get ⟨j, hj⟩) := by
  obtain ⟨⟨j, hj⟩, hget⟩ := List.mem_iff_get.mp hx
  have hjl : j < l.length := by
    rw [collapseOtherHeaders_length] at hj
    exact hj
  refine ⟨j, hjl, ?_⟩
  have := collapseOtherHeaders_get cur l 0 j hjl
  simp only [Nat.zero_add] at this
  rw [← hget]
  rw [show (⟨j, hj⟩ : Fin (collapseOtherHeaders cur 0 l).length) =
        ⟨j, by rw [collapseOtherHeaders_length]; exact hjl⟩ from rfl]
  exact this

/-- A found first index satisfies the predicate at that index. -/
theorem firstIdxWhere_spec (p : ListItem → Bool) :
    ∀ (l : List ListItem) (i : Nat), firstIdxWhere p l = some i →
      ∃ h : i < l.length, p (l.get ⟨i, h⟩) = true := by
  intro l
  induction l with
  | nil => intro i h; simp [firstIdxWhere] at h
  | cons x rest ih =>
      intro i h
      by_cases hp : p x = true
      · simp [firstIdxWhere, hp] at h
        subst h
        exact ⟨by simp, by simpa using hp⟩
      · simp [firstIdxWhere, hp] at h
        obtain ⟨k, hk, rfl⟩ := h
        obtain ⟨hlt, hpk⟩ := ih k hk
        exact ⟨by simpa using hlt, by simpa using hpk⟩

/-- A satisfied predicate guarantees the first-index search succeeds. -/
theorem firstIdxWhere_isSome (p : ListItem → Bool) :
    ∀ (l : List ListItem), (∃ x ∈ l, p x = true) →
      ∃ i, firstIdxWhere p l = some i := by
  intro l
  induction l with
  | nil => rintro ⟨x, hx, -⟩; simp at hx
  | cons y rest ih =>
      rintro ⟨x, hx, hpx⟩
      by_cases hp : p y = true
      · exact ⟨0, by simp [firstIdxWhere, hp]⟩
      · rcases List.mem_cons.mp hx with rfl | hmem
        · exact absurd hpx hp
        · obtain ⟨i, hi⟩ := ih ⟨x, hmem, hpx⟩
          exact ⟨i + 1, by simp [firstIdxWhere, hp, hi]⟩

/-- Reselecting by title never changes the item list. -/
theorem reselectByTitle_items (title : String) (s : UIModelState) :
    (reselectByTitle title s).items = s.items := by
  unfold reselectByTitle
  cases firstIdxWhere (fun mi => mi.text == title) s.items <;> rfl

/-- Reading a valid position with a default equals the positional read. -/
theorem getD_eq_get (l : List ListItem) (k : Nat) (h : k < l.length) :
    l.getD k default = l.get ⟨k, h⟩ := by
  simp [List.getD, List.getElem?_eq_getElem h]

/-- When some row carries the title, reselecting lands the cursor on a row
with that title. -/
theorem reselectByTitle_spec (title : String) (s : UIModelState)
    (hx : ∃ x ∈ s.items, x.text = title) :
    (reselectByTitle title s).index < s.items.length ∧
      (s.items.getD (reselectByTitle title s).index default).text = title := by
  obtain ⟨x, hmem, hxt⟩ := hx
  obtain ⟨i, hi⟩ := firstIdxWhere_isSome (fun mi => mi.text == title) s.items
    ⟨x, hmem, by simpa using hxt⟩
  obtain ⟨hlt, hp⟩ := firstIdxWhere_spec _ s.items i hi
  have hres : reselectByTitle title s = { s with index := i } := by
    unfold reselectByTitle
    rw [hi]
  rw [hres]
  refine ⟨hlt, ?_⟩
  rw [getD_eq_get s.items i hlt]
  simpa using hp

/-- Claim C4, counterexample: with "Account Information" expanded and the
cursor on "Web Cloud" (index 2), `rebuild()` keeps numeric index 2, which
now holds "API information", although a row titled "Web Cloud" is still
present — so rebuild does not preserve the selection by title. -/
theorem rebuild_selection_not_by_title :
    selectedTitle webCloudSelectedState = some "Web Cloud" ∧
      "Web Cloud" ∈
        (updateMenuItems webCloudSelectedState).items.map ListItem.text ∧
      selectedTitle (updateMenuItems webCloudSelectedState) =
        some "API information" := by
  decide

/-- Claim C4 (amended): `rebuild()` preserves the selection by numeric
index — when the previous index is still within the new list it is
re-selected unchanged (so the selected title may change); preservation by
title applies to the toggled header: the header handlers re-select the
first row carrying the clicked header's title after the rebuild, so after
a top-level toggle cycle the cursor sits on a row titled like the clicked
header. -/
theorem rebuild_selection_spec :
    (∀ s : UIModelState, s.index < (rebuildItems s.items).length →
      (updateMenuItems s).items = rebuildItems s.items ∧
        (updateMenuItems s).index = s.index) ∧
    (∀ (s : UIModelState) (hidx : s.index < s.items.length),
      (s.items.get ⟨s.index, hidx⟩).indent = 0 →
      (handleTopLevelHeaderStep s (s.items.get ⟨s.index, hidx⟩)).index <
          (handleTopLevelHeaderStep s (s.items.get ⟨s.index, hidx⟩)).items.length ∧
        ((handleTopLevelHeaderStep s
              (s.items.get ⟨s.index, hidx⟩)).items.getD
            (handleTopLevelHeaderStep s (s.items.get ⟨s.index, hidx⟩)).index
            default).text =
          (s.items.get ⟨s.index, hidx⟩).text) := by
  constructor
  · intro s h
    constructor
    · rfl
    · simp only [updateMenuItems]
      rw [if_pos h]
  · intro s hidx hind
    set b := s.items.get ⟨s.index, hidx⟩ with hb
    set l1 := toggleItemExpanded s.items (Int.ofNat s.index) with hl1
    set clicked := ((l1.get? s.index).map ListItem.expanded).getD false
      with hclk
    set l2 := if clicked then collapseOtherHeaders s.index 0 l1 else l1
      with hl2
    set s3 := updateMenuItems { s with items := l2 } with hs3
    set s4 := reselectByTitle b.text s3 with hs4
    have hr : handleTopLevelHeaderStep s b =
        { s4 with statusMessage := "Menu " ++ b.text ++ " " ++
            (if clicked then "expanded" else "collapsed") } := rfl
    have hflip : l1 = s.items.set s.index
        (b.withExpanded (!b.expanded)) := by
      rw [hl1, toggleItemExpanded_set s.items s.index hidx]
    have hlen1 : l1.length = s.items.length := by
      rw [hflip]; exact List.length_set s.items _ _
    have hil1 : s.index < l1.length := by omega
    have hl1get : l1.get ⟨s.index, hil1⟩ = b.withExpanded (!b.expanded) := by
      rw [List.get_of_eq hflip ⟨s.index, hil1⟩]
      exact List.get_set_eq _
    -- the flipped header keeps its title and indent 0
    have hfliptext : (b.withExpanded (!b.expanded)).text = b.text := rfl
    have hflipind : (b.withExpanded (!b.expanded)).indent = 0 := hind
    -- the flipped header is a row of the rebuilt list in both branches
    have hmem2 : b.withExpanded (!b.expanded) ∈ l2 := by
      rw [hl2]
      by_cases hc : clicked = true
      · rw [if_pos hc]
        have hget := collapseOtherHeaders_get s.index l1 0 s.index hil1
        rw [if_neg (by intro hcc; exact hcc.1 (by omega))] at hget
        rw [hl1get] at hget
        rw [← hget]
        exact List.get_mem _ _ _
      · rw [if_neg hc]
        rw [← hl1get]
        exact List.get_mem _ _ _
    have hmem3 : ∃ x ∈ s3.items, x.text = b.text := by
      refine ⟨b.withExpanded (!b.expanded), ?_, hfliptext⟩
      show b.withExpanded (!b.expanded) ∈ rebuildItems l2
      exact mem_rebuildItems_of_indent0 hmem2 hflipind
    obtain ⟨hlt, htitle⟩ := reselectByTitle_spec b.text s3 hmem3
    have hs4items : s4.items = s3.items := reselectByTitle_items _ _
    constructor
    · rw [hr]
      show s4.index < s4.items.length
      rw [hs4items]
      exact hlt
    · rw [hr]
      show (s4.items.getD s4.index default).text = b.text
      rw [hs4items]
      exact htitle

/-- Accordion behaviour of `handleTopLevelHeader`: expanding a collapsed
top-level header leaves every other header collapsed and the clicked one
expanded. -/
theorem handleTopLevelHeader_accordion (s : UIModelState)
    (hidx : s.index < s.items.length)
    (hhdr : (s.items.get ⟨s.index, hidx⟩).itemType = ItemType.typeHeader)
    (hind : (s.items.get ⟨s.index, hidx⟩).indent = 0)
    (hcol : (s.items.get ⟨s.index, hidx⟩).expanded = false) :
    (∀ x ∈ (handleTopLevelHeaderStep s (s.items.get ⟨s.index, hidx⟩)).items,
        x.itemType = ItemType.typeHeader →
        x.text ≠ (s.items.get ⟨s.index, hidx⟩).text → x.expanded = false) ∧
      (∃ x ∈ (handleTopLevelHeaderStep s (s.items.get ⟨s.index, hidx⟩)).items,
        x.text = (s.items.get ⟨s.index, hidx⟩).text ∧
          x.itemType = ItemType.typeHeader ∧ x.expanded = true) := by
  set b := s.items.get ⟨s.index, hidx⟩ with hb
  set l1 := toggleItemExpanded s.items (Int.ofNat s.index) with hl1
  set clicked := ((l1.get? s.index).map ListItem.expanded).getD false with hclk
  set l2 := if clicked then collapseOtherHeaders s.index 0 l1 else l1 with hl2
  set s3 := updateMenuItems { s with items := l2 } with hs3
  set s4 := reselectByTitle b.text s3 with hs4
  have hr : handleTopLevelHeaderStep s b =
      { s4 with statusMessage := "Menu " ++ b.text ++ " " ++
          (if clicked then "expanded" else "collapsed") } := rfl
  have hflip : l1 = s.items.set s.index (b.withExpanded (!b.expanded)) := by
    rw [hl1, toggleItemExpanded_set s.items s.index hidx]
  have hlen1 : l1.length = s.items.length := by
    rw [hflip]; exact List.length_set s.items _ _
  have hil1 : s.index < l1.length := by omega
  have hl1get : l1.get ⟨s.index, hil1⟩ = b.withExpanded (!b.expanded) := by
    rw [List.get_of_eq hflip ⟨s.index, hil1⟩]
    exact List.get_set_eq _
  have hclicked : clicked = true := by
    rw [hclk, List.get?_eq_get hil1, Option.map_some', Option.getD_some,
      hl1get]
    rw [show (b.withExpanded (!b.expanded)).expanded = !b.expanded from rfl,
      hcol]
    rfl
  have hl2c : l2 = collapseOtherHeaders s.index 0 l1 := by
    rw [hl2, if_pos hclicked]
  have hritems : (handleTopLevelHeaderStep s b).items = rebuildItems l2 := by
    rw [hr]
    show s4.items = rebuildItems l2
    rw [hs4, reselectByTitle_items]
    rfl
  constructor
  · intro x hx hxh hxt
    rw [hritems] at hx
    obtain ⟨hx2, hx0⟩ := header_mem_rebuildItems hx hxh
    rw [hl2c] at hx2
    obtain ⟨j, hj, hxeq⟩ := collapseOtherHeaders_mem s.index l1 hx2
    by_cases hcond : j ≠ s.index ∧
        (l1.get ⟨j, hj⟩).itemType = ItemType.typeHeader ∧
        (l1.get ⟨j, hj⟩).indent = 0 ∧ (l1.get ⟨j, hj⟩).expanded = true
    · rw [if_pos hcond] at hxeq
      rw [hxeq]
      rfl
    · rw [if_neg hcond] at hxeq
      by_cases hjc : j = s.index
      · exfalso
        apply hxt
        subst hjc
        rw [hxeq]
        rw [show l1.get ⟨s.index, hj⟩ = l1.get ⟨s.index, hil1⟩ from rfl,
          hl1get]
        rfl
      · have hexp : (l1.get ⟨j, hj⟩).expanded = false := by
          rcases hB : (l1.get ⟨j, hj⟩).expanded with - | -
          · rfl
          · exact absurd ⟨hjc, by rw [← hxeq]; exact hxh,
              by rw [← hxeq]; exact hx0, hB⟩ hcond
        rw [hxeq]
        exact hexp
  · refine ⟨b.withExpanded (!b.expanded), ?_, rfl, hhdr, ?_⟩
    · rw [hritems]
      apply mem_rebuildItems_of_indent0 _
        (show (b.withExpanded (!b.expanded)).indent = 0 from hind)
      rw [hl2c]
      have hget := collapseOtherHeaders_get s.index l1 0 s.index hil1
      rw [if_neg (by intro hcc; exact hcc.1 (by omega))] at hget
      rw [hl1get] at hget
      rw [← hget]
      exact List.get_mem _ _ _
    · rw [show (b.withExpanded (!b.expanded)).expanded = !b.expanded from rfl,
        hcol]
      rfl

/-- Remote rows all sit at indent 2. -/
theorem remoteRows_indent :
    ∀ (l : List (String × String)) (x : ListItem), x ∈ remoteRows l →
      x.indent = 2 := by
  intro l
  induction l with
  | nil => intro x hx; simp [remoteRows] at hx
  | cons p rest ih =>
      intro x hx
      rcases List.mem_cons.mp hx with rfl | hmem
      · rfl
      · exact ih x hmem

/-- Server rows (including the synthetic error row) all sit at indent 2. -/
theorem serverRows_indent (o : ApiOracle) :
    ∀ x ∈ serverRows o, x.indent = 2 := by
  intro x hx
  unfold serverRows at hx
  rcases hs : o.servers with e | pairs
  · rw [hs] at hx
    simp at hx
    rw [hx]
    rfl
  · rw [hs] at hx
    exact remoteRows_indent _ x hx

/-- VPS rows (including the synthetic error row) all sit at indent 2. -/
theorem vpsRows_indent (o : ApiOracle) :
    ∀ x ∈ vpsRows o, x.indent = 2 := by
  intro x hx
  unfold vpsRows at hx
  rcases hs : o.vps with e | ids
  · rw [hs] at hx
    simp at hx
    rw [hx]
    rfl
  · rw [hs] at hx
    exact remoteRows_indent _ x hx

/-- A search skips a prefix on which the predicate fails everywhere. -/
theorem find?_append_of_none {p : ListItem → Bool} {as : List ListItem}
    (bs : List ListItem) (h : ∀ x ∈ as, p x = false) :
    List.find? p (as ++ bs) = List.find? p bs := by
  induction as with
  | nil => rfl
  | cons a as ih =>
      rw [List.cons_append, List.find?_cons_of_neg _ (by simp [h a (by simp)]),
        ih (fun x hx => h x (by simp [hx]))]

/-- The dynamic rebuild loop drops a prefix of child rows. -/
theorem rebuildItemsDynAux_append_skip (o : ApiOracle) (c : List ListItem)
    {as : List ListItem} (bs : List ListItem)
    (h : ∀ x ∈ as, x.indent ≠ 0) :
    rebuildItemsDynAux o c (as ++ bs) = rebuildItemsDynAux o c bs := by
  induction as with
  | nil => rfl
  | cons a as ih =>
      have ha : a.indent ≠ 0 := h a (by simp)
      rw [List.cons_append,
        show rebuildItemsDynAux o c (a :: (as ++ bs)) =
            rebuildItemsDynAux o c (as ++ bs) by
          simp [rebuildItemsDynAux, ha]]
      exact ih (fun x hx => h x (by simp [hx]))

/-- Rows of the possibly-absent server block fail the nested-header
search and are never top-level. -/
theorem condRows_indent (b : Bool) (rows : List ListItem)
    (hr : ∀ x ∈ rows, x.indent = 2) :
    ∀ x ∈ (if b then rows else []), x.indent = 2 := by
  cases b with
  | false => intro x hx; simp at hx
  | true => intro x hx; exact hr x hx

/-- The dynamic rebuild of the toggled Bare Metal Cloud menu, with an
arbitrary lookup list `c`. -/
theorem rebuildItemsDynAux_toggledBmc (o o' : ApiOracle)
    (dedE vpsE : Bool) (c : List ListItem) :
    rebuildItemsDynAux o' c (toggledBmcItems dedE vpsE o) =
      aiRow :: bmcRowExpanded :: (bmcChildren o' c ++ [wcRow, exitRow]) := by
  show aiRow :: bmcRowExpanded ::
      (bmcChildren o' c ++
        rebuildItemsDynAux o' c
          ((if dedE then serverRows o else []) ++
            (vpsRow vpsE ::
              ((if vpsE then vpsRows o else []) ++ [wcRow, exitRow])))) = _
  rw [rebuildItemsDynAux_append_skip o' c _
    (fun x hx => by rw [condRows_indent dedE _ (serverRows_indent o) x hx]; omega)]
  show aiRow :: bmcRowExpanded ::
      (bmcChildren o' c ++
        rebuildItemsDynAux o' c
          ((if vpsE then vpsRows o else []) ++ [wcRow, exitRow])) = _
  rw [rebuildItemsDynAux_append_skip o' c _
    (fun x hx => by rw [condRows_indent vpsE _ (vpsRows_indent o) x hx]; omega)]
  rfl

/-- The nested-header lookup finds the toggled "Dedicated Servers" row. -/
theorem findNested_toggledBmc_ded (o : ApiOracle) (dedE vpsE : Bool) :
    findNested (toggledBmcItems dedE vpsE o) "Dedicated Servers" =
      some (dedRow (!dedE)) := rfl

/-- The nested-header lookup finds the unchanged "Virtual Private
Servers" row behind the server block. -/
theorem findNested_toggledBmc_vps (o : ApiOracle) (dedE vpsE : Bool) :
    findNested (toggledBmcItems dedE vpsE o) "Virtual Private Servers" =
      some (vpsRow vpsE) := by
  show List.find? (fun old => old.indent == 1 &&
      old.text == "Virtual Private Servers")
      ((if dedE then serverRows o else []) ++
        (vpsRow vpsE ::
          ((if vpsE then vpsRows o else []) ++ [wcRow, exitRow]))) = _
  rw [find?_append_of_none _
    (fun x hx => by
      rw [Bool.and_eq_false_iff]
      left
      rw [condRows_indent dedE _ (serverRows_indent o) x hx]
      rfl)]
  rfl

/-- The Bare Metal Cloud block the dynamic rebuild regenerates from the
toggled list: the flipped "Dedicated Servers" header with its rows, then
the untouched "Virtual Private Servers" header with its rows. -/
theorem bmcChildren_toggledBmc (o o' : ApiOracle) (dedE vpsE : Bool) :
    bmcChildren o' (toggledBmcItems dedE vpsE o) =
      (dedRow (!dedE) :: (if !dedE then serverRows o' else [])) ++
        (vpsRow vpsE :: (if vpsE then vpsRows o' else [])) := by
  unfold bmcChildren
  rw [findNested_toggledBmc_ded o dedE vpsE,
    findNested_toggledBmc_vps o dedE vpsE]
  rfl

/-- Toggling the nested "Dedicated Servers" header through
`handleNestedHeader` with the dynamic rebuild flips only that header: its
sibling "Virtual Private Servers" keeps its expanded flag, for every pair
of remote-fetch outcomes. -/
theorem handleNestedHeaderDyn_independent (dedE vpsE : Bool)
    (o o' : ApiOracle) :
    (bmcState dedE vpsE o).items.get? 2 = some (dedRow dedE) ∧
      findNested (handleNestedHeaderDyn o' (bmcState dedE vpsE o)
          (dedRow dedE)).items "Dedicated Servers" = some (dedRow (!dedE)) ∧
      findNested (handleNestedHeaderDyn o' (bmcState dedE vpsE o)
          (dedRow dedE)).items "Virtual Private Servers" =
        some (vpsRow vpsE) := by
  have hlen : 2 < (bmcState dedE vpsE o).items.length := by
    show 2 < (bmcMenuItems dedE vpsE o).length
    simp [bmcMenuItems]
  have hget2 : (bmcState dedE vpsE o).items.get ⟨2, hlen⟩ = dedRow dedE := rfl
  have ht : toggleItemExpanded (bmcState dedE vpsE o).items (Int.ofNat 2) =
      toggledBmcItems dedE vpsE o := by
    rw [toggleItemExpanded_set (bmcState dedE vpsE o).items 2 hlen, hget2]
    rfl
  have hitems : (handleNestedHeaderDyn o' (bmcState dedE vpsE o)
      (dedRow dedE)).items = rebuildItemsDyn o' (toggledBmcItems dedE vpsE o) := by
    show (reselectByTitle (dedRow dedE).text
        (updateMenuItemsDyn o'
          { bmcState dedE vpsE o with
            items := toggleItemExpanded (bmcState dedE vpsE o).items
              (Int.ofNat (bmcState dedE vpsE o).index) })).items = _
    rw [reselectByTitle_items]
    show rebuildItemsDyn o'
        (toggleItemExpanded (bmcState dedE vpsE o).items (Int.ofNat 2)) = _
    rw [ht]
  have hrebuild : rebuildItemsDyn o' (toggledBmcItems dedE vpsE o) =
      aiRow :: bmcRowExpanded ::
        (((dedRow (!dedE) :: (if !dedE then serverRows o' else [])) ++
            (vpsRow vpsE :: (if vpsE then vpsRows o' else []))) ++
          [wcRow, exitRow]) := by
    show rebuildItemsDynAux o' (toggledBmcItems dedE vpsE o)
        (toggledBmcItems dedE vpsE o) = _
    rw [rebuildItemsDynAux_toggledBmc o o' dedE vpsE,
      bmcChildren_toggledBmc o o' dedE vpsE]
  refine ⟨rfl, ?_, ?_⟩
  · rw [hitems, hrebuild]
    rfl
  · rw [hitems, hrebuild]
    simp only [List.cons_append, List.append_assoc]
    show List.find? (fun old => old.indent == 1 &&
        old.text == "Virtual Private Servers")
        ((if !dedE then serverRows o' else []) ++
          (vpsRow vpsE ::
            ((if vpsE then vpsRows o' else []) ++ [wcRow, exitRow]))) = _
    rw [find?_append_of_none _
      (fun x hx => by
        rw [Bool.and_eq_false_iff]
        left
        rw [condRows_indent (!dedE) _ (serverRows_indent o') x hx]
        rfl)]
    rfl

/-- Claim C3: accordion exclusivity for top-level headers — expanding a
collapsed top-level Header B through one toggleExpanded-plus-rebuild
cycle (`handleTopLevelHeader`) leaves every other top-level Header
(in particular any previously expanded Header A) collapsed and B
expanded; and a nested (non-top-level) Header toggles without affecting
its sibling's expanded state: toggling "Dedicated Servers" under the
expanded "Bare Metal Cloud" section (`handleNestedHeader` with the
dynamically-fetching rebuild) flips only that header while "Virtual
Private Servers" keeps its flag, for every remote-fetch outcome. -/
theorem accordion_and_nested_independence :
    (∀ (s : UIModelState) (hidx : s.index < s.items.length),
      (s.items.get ⟨s.index, hidx⟩).itemType = ItemType.typeHeader →
      (s.items.get ⟨s.index, hidx⟩).indent = 0 →
      (s.items.get ⟨s.index, hidx⟩).expanded = false →
      (∀ x ∈ (handleTopLevelHeaderStep s (s.items.get ⟨s.index, hidx⟩)).items,
          x.itemType = ItemType.typeHeader →
          x.text ≠ (s.items.get ⟨s.index, hidx⟩).text → x.expanded = false) ∧
        (∃ x ∈ (handleTopLevelHeaderStep s (s.items.get ⟨s.index, hidx⟩)).items,
          x.text = (s.items.get ⟨s.index, hidx⟩).text ∧
            x.itemType = ItemType.typeHeader ∧ x.expanded = true)) ∧
    (∀ (dedE vpsE : Bool) (o o' : ApiOracle),
      (bmcState dedE vpsE o).items.get? 2 = some (dedRow dedE) ∧
        findNested (handleNestedHeaderDyn o' (bmcState dedE vpsE o)
            (dedRow dedE)).items "Dedicated Servers" =
          some (dedRow (!dedE)) ∧
        findNested (handleNestedHeaderDyn o' (bmcState dedE vpsE o)
            (dedRow dedE)).items "Virtual Private Servers" =
          some (vpsRow vpsE)) :=
  ⟨handleTopLevelHeader_accordion, handleNestedHeaderDyn_independent⟩

/-- Claim C3, witness: with "Account Information" expanded and the cursor
on the collapsed "Bare Metal Cloud" (index 1), the cycle leaves a row
titled "Bare Metal Cloud" expanded and every header titled differently
collapsed — instantiated at the "Account Information" row; and the
nested scenario at concrete flags and the all-failing oracle. -/
theorem accordion_and_nested_independence_witness :
    (∀ x ∈ (handleTopLevelHeaderStep
        (mkState (toggleItemExpanded createBaseMenuItems 0) 1 true)
        ((mkState (toggleItemExpanded createBaseMenuItems 0) 1 true).items.get
          ⟨1, by decide⟩)).items,
      x.itemType = ItemType.typeHeader → x.text ≠ "Bare Metal Cloud" →
        x.expanded = false) ∧
    (∃ x ∈ (handleTopLevelHeaderStep
        (mkState (toggleItemExpanded createBaseMenuItems 0) 1 true)
        ((mkState (toggleItemExpanded createBaseMenuItems 0) 1 true).items.get
          ⟨1, by decide⟩)).items,
      x.text = "Bare Metal Cloud" ∧ x.itemType = ItemType.typeHeader ∧
        x.expanded = true) ∧
    findNested (handleNestedHeaderDyn offlineOracle
        (bmcState true false offlineOracle) (dedRow true)).items
      "Virtual Private Servers" = some (vpsRow false) := by
  have h1 := accordion_and_nested_independence.1
    (mkState (toggleItemExpanded createBaseMenuItems 0) 1 true)
    (by decide) (by decide) (by decide) (by decide)
  have h2 := (accordion_and_nested_independence.2 true false
    offlineOracle offlineOracle).2.2
  exact ⟨h1.1, h1.2, h2⟩

/-- Claim C4, witness: the by-index branch at the concrete "Web Cloud"
scenario (index 2 stays selected) and the by-title handler branch with the
cursor on "Account Information" (after the cycle the cursor row is titled
"Account Information"). -/
theorem rebuild_selection_spec_witness :
    ((updateMenuItems webCloudSelectedState).items =
        rebuildItems webCloudSelectedState.items ∧
      (updateMenuItems webCloudSelectedState).index = 2) ∧
    ((handleTopLevelHeaderStep (mkState createBaseMenuItems 0 true)
          ((mkState createBaseMenuItems 0 true).items.get ⟨0, by decide⟩)).index <
        (handleTopLevelHeaderStep (mkState createBaseMenuItems 0 true)
          ((mkState createBaseMenuItems 0 true).items.get ⟨0, by decide⟩)).items.length ∧
      ((handleTopLevelHeaderStep (mkState createBaseMenuItems 0 true)
            ((mkState createBaseMenuItems 0 true).items.get ⟨0, by decide⟩)).items.getD
          (handleTopLevelHeaderStep (mkState createBaseMenuItems 0 true)
            ((mkState createBaseMenuItems 0 true).items.get ⟨0, by decide⟩)).index
          default).text = "Account Information") :=
  ⟨rebuild_selection_spec.1 webCloudSelectedState (by decide),
    rebuild_selection_spec.2 (mkState createBaseMenuItems 0 true) (by decide)
      (by decide)⟩

/-- Claim C7: for every terminal size with width at least 80 and height at
least 20, `calculateDimensions` yields strictly positive content width and
height (menu width fixed at 32, horizontal space 9, status bar space 3, UI
elements space 2); consequently, whenever a resize leaves the model ready,
`Manager.Update` takes the applying branch — the skip branch for
non-positive dimensions is unreachable — and installs the computed
sizes. -/
theorem layout_dimensions_positive :
    (∀ s : UIModelState, 80 ≤ s.width → 20 ≤ s.height →
      0 < (calculateDimensions s).contentWidth ∧
        0 < (calculateDimensions s).contentHeight ∧
        (calculateDimensions s).menuWidth = 32) ∧
    (∀ (s : UIModelState) (w h : Int), (setSize s w h).ready = true →
      layoutUpdate (setSize s w h) =
        { setSize s w h with
            listWidth := 32, listHeight := h - 3 - 2,
            vpWidth := w - 32 - 9, vpHeight := h - 3 - 2 }) := by
  constructor
  · intro s hw hh
    refine ⟨?_, ?_, rfl⟩ <;>
      simp only [calculateDimensions, MenuWidth, HorizontalSpace,
        StatusBarSpace, UIElementsSpace] <;>
      omega
  · intro s w h hr
    obtain ⟨hw, hh⟩ : 80 ≤ w ∧ 20 ≤ h := by
      simpa [setSize] using hr
    unfold layoutUpdate
    rw [if_neg (by rw [hr]; simp)]
    rw [if_neg (by
      simp only [calculateDimensions, setSize, MenuWidth, HorizontalSpace,
        StatusBarSpace, UIElementsSpace, Bool.or_eq_true, decide_eq_true_eq]
      push_neg
      constructor <;> omega)]
    rfl

/-- Claim C7, witness: the boundary terminal size 80x20 is ready and gets
content size 39x15 applied. -/
theorem layout_dimensions_positive_witness :
    (0 < (calculateDimensions (setSize (mkState createBaseMenuItems 0 true)
          80 20)).contentWidth ∧
      0 < (calculateDimensions (setSize (mkState createBaseMenuItems 0 true)
          80 20)).contentHeight ∧
      (calculateDimensions (setSize (mkState createBaseMenuItems 0 true)
          80 20)).menuWidth = 32) ∧
    layoutUpdate (setSize (mkState createBaseMenuItems 0 true) 80 20) =
      { setSize (mkState createBaseMenuItems 0 true) 80 20 with
          listWidth := 32, listHeight := (20 : Int) - 3 - 2,
          vpWidth := (80 : Int) - 32 - 9, vpHeight := (20 : Int) - 3 - 2 } :=
  ⟨layout_dimensions_positive.1
      (setSize (mkState createBaseMenuItems 0 true) 80 20)
      (by decide) (by decide),
    layout_dimensions_positive.2 (mkState createBaseMenuItems 0 true) 80 20
      (by decide)⟩

/-- Claim C9: activating a selectable leaf whose title is not bound in the
command registry only rewrites the status message to reference that title
("Selected: <title>"); the content, active pane, menu list, cursor and
stored dimensions are all unchanged and no error is reported. -/
theorem unbound_leaf_status_only (o : ApiOracle) (s : UIModelState)
    (item : ListItem) (hreg : commandRegistry item.text = none) :
    (handleTreeCommandStep o s item).1.statusMessage =
        "Selected: " ++ item.text ∧
      (handleTreeCommandStep o s item).1.content = s.content ∧
      (handleTreeCommandStep o s item).1.activePane = s.activePane ∧
      (handleTreeCommandStep o s item).1.items = s.items ∧
      (handleTreeCommandStep o s item).1.index = s.index ∧
      (handleTreeCommandStep o s item).1.width = s.width ∧
      (handleTreeCommandStep o s item).1.height = s.height ∧
      (handleTreeCommandStep o s item).2 = false := by
  unfold handleTreeCommandStep
  rw [hreg]
  exact ⟨rfl, rfl, rfl, rfl, rfl, rfl, rfl, rfl⟩

/-- Claim C9, witness: the "Unknown Item" leaf on the initial ready
state. -/
theorem unbound_leaf_status_only_witness :
    (handleTreeCommandStep offlineOracle (mkState createBaseMenuItems 0 true)
        (newListItem "Unknown Item" ItemType.typeTreeItem "" 1 false true)).1.statusMessage =
      "Selected: " ++ "Unknown Item" ∧
    (handleTreeCommandStep offlineOracle (mkState createBaseMenuItems 0 true)
        (newListItem "Unknown Item" ItemType.typeTreeItem "" 1 false true)).1.content =
      (mkState createBaseMenuItems 0 true).content :=
  have h := unbound_leaf_status_only offlineOracle
    (mkState createBaseMenuItems 0 true)
    (newListItem "Unknown Item" ItemType.typeTreeItem "" 1 false true) rfl
  ⟨h.1, h.2.1⟩

/-- Claim C10: while the model is not ready, `HandleKeyMsg` returns the
model unchanged with no command for every key — quit, pane toggle,
navigation, activate and unregistered keys alike are discarded before any
handler runs. -/
theorem not_ready_discards_keys (o : ApiOracle) (s : UIModelState)
    (key : String) (h : s.ready = false) :
    handleKeyMsg o s key = (s, none) := by
  unfold handleKeyMsg
  rw [h]
  rfl

/-- Claim C10, witness: the "enter" key on a not-ready state over the
initial menu. -/
theorem not_ready_discards_keys_witness :
    handleKeyMsg offlineOracle (mkState createBaseMenuItems 0 false)
        "enter" =
      (mkState createBaseMenuItems 0 false, none) :=
  not_ready_discards_keys offlineOracle
    (mkState createBaseMenuItems 0 false) "enter" rfl

/-- Claim C1, counterexample: in a not-ready state the "q" key does not
produce the quit command — the dispatcher discards it — so the quit input
does not end the loop from every state. -/
theorem quit_not_returned_when_not_ready :
    (handleKeyMsg offlineOracle (mkState createBaseMenuItems 1 false)
        "q").2 ≠ some UiCmd.quitCmd := by
  intro h
  have h0 : (handleKeyMsg offlineOracle (mkState createBaseMenuItems 1 false)
      "q").2 = none := rfl
  rw [h0] at h
  exact Option.noConfusion h

/-- Claim C1 (amended): the quit inputs "q" and "ctrl+c" return the quit
command from every ready state — whatever the active pane, menu contents
or cursor — while in a not-ready state the dispatcher discards them like
every other key. -/
theorem quit_key_quits_when_ready (o : ApiOracle) (s : UIModelState)
    (h : s.ready = true) (key : String)
    (hk : key = "q" ∨ key = "ctrl+c") :
    handleKeyMsg o s key = (s, some UiCmd.quitCmd) := by
  rcases hk with rfl | rfl <;>
    · unfold handleKeyMsg
      rw [h]
      rfl

/-- Claim C1, witness: "ctrl+c" on a ready state over the initial menu
with the content pane active. -/
theorem quit_key_quits_when_ready_witness :
    handleKeyMsg offlineOracle (mkState createBaseMenuItems 0 true)
        "ctrl+c" =
      (mkState createBaseMenuItems 0 true, some UiCmd.quitCmd) :=
  quit_key_quits_when_ready offlineOracle
    (mkState createBaseMenuItems 0 true) rfl "ctrl+c" (Or.inr rfl)

/-- Claim C6: each invocation of `ExecuteAsync` delivers exactly one
`CommandResult` on its single-item-buffered channel and then closes it: for
every outcome of the underlying execution the goroutine's channel trace
contains exactly one send, ends with the close, and never sends after
the close; the buffer holds one item, so the single send cannot block. -/
theorem executeAsync_single_delivery (e : ExecOutcome) :
    (executeAsyncEvents e).countP isSendEvent = 1 ∧
      (executeAsyncEvents e).getLast? = some ChanEvent.chanClose ∧
      noSendAfterClose (executeAsyncEvents e) = true ∧
      executeAsyncBuffer = 1 :=
  ⟨rfl, rfl, rfl, rfl⟩

example : rebuildItems createBaseMenuItems = createBaseMenuItems := by decide

example :
    (rebuildItems (toggleItemExpanded createBaseMenuItems 0)).map ListItem.text =
      ["Account Information", "My information", "API information",
       "Bare Metal Cloud", "Web Cloud", "Exit"] := by decide

example :
    rebuildItemsDyn offlineOracle (toggleItemExpanded createBaseMenuItems 1) =
      bmcMenuItems false false offlineOracle := rfl
